import Mathlib

/-!
Shallow embedding of `VLVector<T, StaticCapacity>` (src/VLVector.hpp), a hybrid
inline/heap vector, together with proofs of its specified properties.

Modelling decisions:
* The two possible storage regions (`_staticMem`, the inline buffer, and the
  currently allocated heap block) are modelled as total functions `Nat → T`;
  the raw pointer `_data` is modelled by the flag `dataIsStatic`
  (`_data == _staticMem` in the C++ source).  A freshly `new[]`-allocated block
  is default-initialized, modelled with `fun _ => default`.
* `std::copy` / `std::copy_backward` are modelled by `copyRange`, which reads
  all source values from a snapshot of the source memory; this agrees with the
  C++ calls because in every call site of the source either the regions are
  disjoint, or the destination precedes the source (forward copy) or follows it
  (backward copy), which is exactly when the element-by-element loop computes
  the snapshot semantics.
* `delete[]` of a block that is dead afterwards is modelled by resetting the
  heap slot to `fun _ => default` where the freed block is observable
  (assignment), and is otherwise without effect on the abstract state.
* Iterators are element indices; `pos - begin()` is the index `posIdx`.
* The checked accessor models `throw std::out_of_range` as `Except.error`.
-/

namespace VLV

/-- Error message of the checked accessor, `OUT_OF_RANGE_ERR_MSG` in the source. -/
def OUT_OF_RANGE_ERR_MSG : String := "Index out of range."

/-- State of a `VLVector<T, StaticCapacity>`: the inline buffer `_staticMem`,
the heap block, the flag `dataIsStatic` modelling whether the data pointer
`_data` equals `_staticMem`, and the fields `_size` and `_capacity`. -/
structure VLVec (T : Type) (SC : Nat) where
  _staticMem : Nat → T
  _heapMem : Nat → T
  dataIsStatic : Bool
  _size : Nat
  _capacity : Nat

variable {T : Type} {SC : Nat}

/-- Public accessor `size()`. -/
def VLVec.size (v : VLVec T SC) : Nat := v._size

/-- Public accessor `capacity()`. -/
def VLVec.capacity (v : VLVec T SC) : Nat := v._capacity

/-- Public accessor `empty()`. -/
def VLVec.empty (v : VLVec T SC) : Bool := v._size == 0

/-- The memory region the data pointer `_data` currently points to. -/
def activeMem (v : VLVec T SC) : Nat → T :=
  if v.dataIsStatic then v._staticMem else v._heapMem

/-- Write through the data pointer `_data`: updates whichever region is active. -/
def setActive (v : VLVec T SC) (m : Nat → T) : VLVec T SC :=
  if v.dataIsStatic then { v with _staticMem := m } else { v with _heapMem := m }

/-- Model of `std::copy(src + srcStart, src + srcStart + n, dst + dstStart)`
(and of `std::copy_backward` with the same source/destination ranges):
the destination region `[dstStart, dstStart + n)` receives the source values,
read from a snapshot of `src`. -/
def copyRange (src dst : Nat → T) (srcStart dstStart n : Nat) : Nat → T :=
  fun i => if dstStart ≤ i ∧ i < dstStart + n then src (srcStart + (i - dstStart)) else dst i

/-- Model of a single element write `mem[idx] = value`. -/
def writeAt (m : Nat → T) (idx : Nat) (value : T) : Nat → T :=
  fun i => if i = idx then value else m i

/-- Model of `std::copy(first, last, mem + dstStart)` where the input range
`[first, last)` is given as the list `xs`. -/
def writeList [Inhabited T] (m : Nat → T) (dstStart : Nat) (xs : List T) : Nat → T :=
  fun i => if dstStart ≤ i ∧ i < dstStart + xs.length then xs.getD (i - dstStart) default else m i

/-- Default constructor `VLVector()`: `_data(_staticMem), _size(0),
_capacity(StaticCapacity)`; both buffers are default-initialized. -/
def mkVLVec [Inhabited T] : VLVec T SC :=
  { _staticMem := fun _ => default
    _heapMem := fun _ => default
    dataIsStatic := true
    _size := 0
    _capacity := SC }

/-- The capacity formula `_cap(additionalSize)`:
`_size + additionalSize <= StaticCapacity ? StaticCapacity
: std::floor(GROWTH_FACTOR * (_size + additionalSize))` with
`GROWTH_FACTOR = 3.0/2.0`; `⌊(3/2)·x⌋` is `3 * x / 2` in natural division. -/
def _cap (v : VLVec T SC) (additionalSize : Nat) : Nat :=
  if v._size + additionalSize ≤ SC then SC else 3 * (v._size + additionalSize) / 2

/-- The reallocation step of `_pushAt` (body of its `if`): when
`_size + numOfElements > _capacity`, allocate `new T[_cap(numOfElements)]`
(default-initialized), copy `[cbegin(), pos)` into it, set `_capacity` and
retarget `_data` to the new heap block. -/
def pushRealloc [Inhabited T] (v : VLVec T SC) (posIdx numOfElements : Nat) : VLVec T SC :=
  if v._size + numOfElements > v._capacity then
    { v with
      _heapMem := copyRange (activeMem v) (fun _ => default) 0 0 posIdx
      dataIsStatic := false
      _capacity := _cap v numOfElements }
  else v

/-- `_pushAt(pos, numOfElements, pushElements)`: reallocate if needed, then
`std::copy_backward(pos, initialEnd, end() + numOfElements)` shifts the
suffix right by `numOfElements`, then the caller-supplied `pushElements`
writes the gap through `_data`, then `_size += numOfElements`.
(The `delete[] oldMem` of a replaced heap block has no observable effect on
the abstract state, since `_data` already points to the new block.) -/
def _pushAt [Inhabited T] (v : VLVec T SC) (posIdx numOfElements : Nat)
    (pushElements : (Nat → T) → Nat → T) : VLVec T SC :=
  let initialEndIdx := v._size
  let oldActive := activeMem v
  let v1 := pushRealloc v posIdx numOfElements
  let v2 := setActive v1
    (copyRange oldActive (activeMem v1) posIdx (posIdx + numOfElements)
      (initialEndIdx - posIdx))
  let v3 := setActive v2 (pushElements (activeMem v2))
  { v3 with _size := v3._size + numOfElements }

/-- `push_back(value)`: `_pushAt(cend(), 1, [&]() { _data[_size] = value; })`;
the lambda runs before `_size` is incremented, so it writes at index `v._size`. -/
def push_back [Inhabited T] (v : VLVec T SC) (value : T) : VLVec T SC :=
  _pushAt v v._size 1 (fun m => writeAt m v._size value)

/-- Single-element `insert(pos, value)`: records `idx = pos - begin()`, calls
`_pushAt(pos, 1, [&]() {_data[idx] = value; })`, returns `begin() + idx`. -/
def insertOne [Inhabited T] (v : VLVec T SC) (posIdx : Nat) (value : T) :
    VLVec T SC × Nat :=
  (_pushAt v posIdx 1 (fun m => writeAt m posIdx value), posIdx)

/-- Range `insert(pos, first, last)` with the input range `[first, last)` given
as the list `xs`: `numOfElements = std::distance(first, last)`,
`posIdx = pos - begin()`, push function `std::copy(first, last, _data + posIdx)`,
returns `begin() + posIdx`. -/
def insertRange [Inhabited T] (v : VLVec T SC) (posIdx : Nat) (xs : List T) :
    VLVec T SC × Nat :=
  (_pushAt v posIdx xs.length (fun m => writeList m posIdx xs), posIdx)

/-- The branch condition of `erase`:
`_capacity > StaticCapacity && _size - toRemoveSize <= StaticCapacity`. -/
def eraseShrinks (v : VLVec T SC) (firstIdx lastIdx : Nat) : Bool :=
  decide (SC < v._capacity) && decide (v._size - (lastIdx - firstIdx) ≤ SC)

/-- The shrink-back step of `erase` (body of its `if`): copy
`[cbegin(), first)` into `_staticMem`, retarget `_data` to `_staticMem`, and
set `_capacity = StaticCapacity`.  The old heap block is freed at the end of
`erase` (after the gap-closing copy, which reads from a snapshot of it) and is
dead afterwards, modelled by resetting the heap slot. -/
def eraseShrinkStep [Inhabited T] (v : VLVec T SC) (firstIdx lastIdx : Nat) : VLVec T SC :=
  if eraseShrinks v firstIdx lastIdx then
    { v with
      _staticMem := copyRange (activeMem v) v._staticMem 0 0 firstIdx
      dataIsStatic := true
      _capacity := SC
      _heapMem := fun _ => default }
  else v

/-- `erase(first, last)`: possibly shrink back to the inline buffer, then copy
`[last, initEnd)` to `begin() + firstIdx` closing the gap, decrement `_size`
by `toRemoveSize = last - first`, and return `begin() + firstIdx`.  Both
copies read from the initially active memory, matching the deferred
`delete[] oldMem` in the source. -/
def erase [Inhabited T] (v : VLVec T SC) (firstIdx lastIdx : Nat) : VLVec T SC × Nat :=
  let initEndIdx := v._size
  let toRemoveSize := lastIdx - firstIdx
  let oldActive := activeMem v
  let v1 := eraseShrinkStep v firstIdx lastIdx
  let v2 := setActive v1 (copyRange oldActive (activeMem v1) lastIdx firstIdx
    (initEndIdx - lastIdx))
  ({ v2 with _size := v2._size - toRemoveSize }, firstIdx)

/-- `pop_back()`: `erase(cend() - 1)`, i.e. `erase(cend() - 1, cend())`. -/
def pop_back [Inhabited T] (v : VLVec T SC) : VLVec T SC :=
  (erase v (v._size - 1) v._size).1

/-- `clear()`: `erase(begin(), end())`. -/
def clear [Inhabited T] (v : VLVec T SC) : VLVec T SC :=
  (erase v 0 v._size).1

/-- `_copyMembers(other)`: if `other._capacity > StaticCapacity` allocate
`_data = new T[other._capacity]` (fresh default-initialized heap block),
then `_capacity = other._capacity`,
`std::copy(other.begin(), other.end(), begin())`, `_size = other._size`.
Note the source never retargets `_data` to `_staticMem` when `other` is in
inline mode. -/
def _copyMembers [Inhabited T] (v other : VLVec T SC) : VLVec T SC :=
  let v1 : VLVec T SC :=
    if SC < other._capacity then
      { v with _heapMem := fun _ => default, dataIsStatic := false }
    else v
  let v2 : VLVec T SC := { v1 with _capacity := other._capacity }
  let v3 : VLVec T SC :=
    setActive v2 (copyRange (activeMem other) (activeMem v2) 0 0 other._size)
  { v3 with _size := other._size }

/-- Copy assignment `operator=` for distinct objects (the `&other == this`
identity check of the source cannot fire between two distinct containers):
`if (_capacity > StaticCapacity) delete[] _data;` — modelled by resetting the
heap slot to default, since the freed block is read afterwards in the source —
then `_copyMembers(other)`. -/
def assignOp [Inhabited T] (v other : VLVec T SC) : VLVec T SC :=
  let v1 := if SC < v._capacity then { v with _heapMem := fun _ => default } else v
  _copyMembers v1 other

/-- Copy constructor `VLVector(VLVector& other): VLVector() {_copyMembers(other); }`. -/
def copyCtor [Inhabited T] (other : VLVec T SC) : VLVec T SC :=
  _copyMembers mkVLVec other

/-- Range constructor `VLVector(first, last): VLVector()
{insert(begin(), first, last); }`. -/
def rangeCtor [Inhabited T] (xs : List T) : VLVec T SC :=
  (insertRange mkVLVec 0 xs).1

/-- Checked accessor `at(index)` (mutable overload): throws
`std::out_of_range(OUT_OF_RANGE_ERR_MSG)` when `index >= _size`, otherwise
returns `_data[index]`. -/
def atIdx (v : VLVec T SC) (index : Nat) : Except String T :=
  if index ≥ v._size then Except.error OUT_OF_RANGE_ERR_MSG
  else Except.ok (activeMem v index)

/-- Checked accessor `at(index) const` (read-only overload, same body). -/
def atIdxConst (v : VLVec T SC) (index : Nat) : Except String T :=
  if index ≥ v._size then Except.error OUT_OF_RANGE_ERR_MSG
  else Except.ok (activeMem v index)

/-- Unchecked `operator[]`: `_data[idx]` (both overloads). -/
def getOp (v : VLVec T SC) (idx : Nat) : T := activeMem v idx

/-- `operator==`: `end() - begin() == other.end() - other.begin() &&
std::equal(begin(), end(), other.begin())`. -/
def beq [DecidableEq T] (v other : VLVec T SC) : Bool :=
  v._size == other._size
    && (List.range v._size).all fun i => activeMem v i == activeMem other i

/-- The sequence of live elements of the container, in iteration order
(`begin()` to `end()`). -/
def toList (v : VLVec T SC) : List T := (List.range v._size).map (activeMem v)

/-- A sequence of `push_back` calls starting from a default-constructed
container. -/
def pushSeq [Inhabited T] (xs : List T) : VLVec T SC :=
  xs.foldl push_back mkVLVec

/-! Concrete containers used by the counter-examples and witnesses below.
The element type is `Nat` and the static capacity is 2 or 4 as annotated. -/

/-- Heap-mode container `[1,2,3]` with `StaticCapacity = 2` (capacity 4). -/
def exHeap2 : VLVec Nat 2 := pushSeq [1, 2, 3]

/-- Inline container `[9]` with `StaticCapacity = 2`. -/
def exInline2 : VLVec Nat 2 := pushSeq [9]

/-- Inline container `[1]` with `StaticCapacity = 4`. -/
def exOne : VLVec Nat 4 := pushSeq [1]

/-- Inline container `[2]` with `StaticCapacity = 4`. -/
def exTwo : VLVec Nat 4 := pushSeq [2]

/-- Heap-mode container `[1,2,3,4,5]` with `StaticCapacity = 4` (capacity 7). -/
def exHeap4 : VLVec Nat 4 := pushSeq [1, 2, 3, 4, 5]

/-- Inline container `[10,20]` with `StaticCapacity = 4`. -/
def exXY : VLVec Nat 4 := pushSeq [10, 20]

/-- Full inline container `[1,2,3,4]` with `StaticCapacity = 4`. -/
def exFull4 : VLVec Nat 4 := pushSeq [1, 2, 3, 4]

/-- Inline container `[7]` with `StaticCapacity = 4`. -/
def exSeven : VLVec Nat 4 := pushSeq [7]

/-- Inline container with one pushed element, `StaticCapacity = 4`. -/
def exPush1 : VLVec Nat 4 := push_back mkVLVec 1

/-- The containers reachable through the public operations of the class. -/
inductive Reachable {T : Type} [Inhabited T] {SC : Nat} : VLVec T SC → Prop where
  | mk : Reachable mkVLVec
  | push (v : VLVec T SC) (x : T) (h : Reachable v) : Reachable (push_back v x)
  | insOne (v : VLVec T SC) (p : Nat) (x : T) (hp : p ≤ v._size) (h : Reachable v) :
      Reachable (insertOne v p x).1
  | insRange (v : VLVec T SC) (p : Nat) (xs : List T) (hp : p ≤ v._size) (h : Reachable v) :
      Reachable (insertRange v p xs).1
  | ers (v : VLVec T SC) (f l : Nat) (hf : f ≤ l) (hl : l ≤ v._size) (h : Reachable v) :
      Reachable (erase v f l).1
  | pop (v : VLVec T SC) (hne : v._size ≠ 0) (h : Reachable v) : Reachable (pop_back v)
  | clr (v : VLVec T SC) (h : Reachable v) : Reachable (clear v)
  | assign (a b : VLVec T SC) (ha : Reachable a) (hb : Reachable b) :
      Reachable (assignOp a b)
  | copy (v : VLVec T SC) (h : Reachable v) : Reachable (copyCtor v)
  | range (xs : List T) : Reachable (rangeCtor xs : VLVec T SC)

/-! Basic lemmas about the state components of each operation. -/

@[simp]
theorem activeMem_setActive (v : VLVec T SC) (m : Nat → T) :
    activeMem (setActive v m) = m := by
  cases h : v.dataIsStatic <;> simp [activeMem, setActive, h]

@[simp]
theorem setActive_size (v : VLVec T SC) (m : Nat → T) :
    (setActive v m)._size = v._size := by
  cases h : v.dataIsStatic <;> simp [setActive, h]

@[simp]
theorem setActive_capacity (v : VLVec T SC) (m : Nat → T) :
    (setActive v m)._capacity = v._capacity := by
  cases h : v.dataIsStatic <;> simp [setActive, h]

@[simp]
theorem setActive_flag (v : VLVec T SC) (m : Nat → T) :
    (setActive v m).dataIsStatic = v.dataIsStatic := by
  cases h : v.dataIsStatic <;> simp [setActive, h]

@[simp]
theorem activeMem_setSize (v : VLVec T SC) (k : Nat) :
    activeMem ({ v with _size := k } : VLVec T SC) = activeMem v := rfl

theorem copyRange_apply (src dst : Nat → T) (srcStart dstStart n i : Nat) :
    copyRange src dst srcStart dstStart n i =
      if dstStart ≤ i ∧ i < dstStart + n then src (srcStart + (i - dstStart)) else dst i := rfl

theorem eraseShrinks_iff (v : VLVec T SC) (f l : Nat) :
    eraseShrinks v f l = true ↔ SC < v._capacity ∧ v._size - (l - f) ≤ SC := by
  simp [eraseShrinks]

@[simp]
theorem pushRealloc_size [Inhabited T] (v : VLVec T SC) (p n : Nat) :
    (pushRealloc v p n)._size = v._size := by
  unfold pushRealloc; split <;> rfl

@[simp]
theorem pushRealloc_capacity [Inhabited T] (v : VLVec T SC) (p n : Nat) :
    (pushRealloc v p n)._capacity =
      if v._size + n > v._capacity then _cap v n else v._capacity := by
  unfold pushRealloc; split <;> simp_all

@[simp]
theorem pushRealloc_flag [Inhabited T] (v : VLVec T SC) (p n : Nat) :
    (pushRealloc v p n).dataIsStatic =
      if v._size + n > v._capacity then false else v.dataIsStatic := by
  unfold pushRealloc; split <;> simp_all

theorem pushRealloc_active_lt [Inhabited T] (v : VLVec T SC) (p n i : Nat) (hi : i < p) :
    activeMem (pushRealloc v p n) i = activeMem v i := by
  unfold pushRealloc
  split
  · simp [activeMem, copyRange, hi]
  · rfl

@[simp]
theorem pushAt_size [Inhabited T] (v : VLVec T SC) (p n : Nat)
    (f : (Nat → T) → Nat → T) : (_pushAt v p n f)._size = v._size + n := by
  simp [_pushAt]

@[simp]
theorem pushAt_capacity [Inhabited T] (v : VLVec T SC) (p n : Nat)
    (f : (Nat → T) → Nat → T) :
    (_pushAt v p n f)._capacity =
      if v._size + n > v._capacity then _cap v n else v._capacity := by
  simp [_pushAt]

@[simp]
theorem pushAt_flag [Inhabited T] (v : VLVec T SC) (p n : Nat)
    (f : (Nat → T) → Nat → T) :
    (_pushAt v p n f).dataIsStatic =
      if v._size + n > v._capacity then false else v.dataIsStatic := by
  simp [_pushAt]

theorem pushAt_active [Inhabited T] (v : VLVec T SC) (p n : Nat)
    (f : (Nat → T) → Nat → T) :
    activeMem (_pushAt v p n f) =
      f (copyRange (activeMem v) (activeMem (pushRealloc v p n)) p (p + n)
        (v._size - p)) := by
  simp only [_pushAt, activeMem_setSize, activeMem_setActive]

@[simp]
theorem eraseShrinkStep_size [Inhabited T] (v : VLVec T SC) (f l : Nat) :
    (eraseShrinkStep v f l)._size = v._size := by
  unfold eraseShrinkStep; split <;> rfl

@[simp]
theorem eraseShrinkStep_capacity [Inhabited T] (v : VLVec T SC) (f l : Nat) :
    (eraseShrinkStep v f l)._capacity =
      if eraseShrinks v f l then SC else v._capacity := by
  unfold eraseShrinkStep; split <;> simp_all

@[simp]
theorem eraseShrinkStep_flag [Inhabited T] (v : VLVec T SC) (f l : Nat) :
    (eraseShrinkStep v f l).dataIsStatic =
      if eraseShrinks v f l then true else v.dataIsStatic := by
  unfold eraseShrinkStep; split <;> simp_all

theorem eraseShrinkStep_active_lt [Inhabited T] (v : VLVec T SC) (f l i : Nat)
    (hi : i < f) : activeMem (eraseShrinkStep v f l) i = activeMem v i := by
  unfold eraseShrinkStep
  split
  · simp [activeMem, copyRange, hi]
  · rfl

@[simp]
theorem erase_size [Inhabited T] (v : VLVec T SC) (f l : Nat) :
    (erase v f l).1._size = v._size - (l - f) := by
  simp [erase]

@[simp]
theorem erase_capacity [Inhabited T] (v : VLVec T SC) (f l : Nat) :
    (erase v f l).1._capacity = if eraseShrinks v f l then SC else v._capacity := by
  simp [erase]

@[simp]
theorem erase_flag [Inhabited T] (v : VLVec T SC) (f l : Nat) :
    (erase v f l).1.dataIsStatic =
      if eraseShrinks v f l then true else v.dataIsStatic := by
  simp [erase]

@[simp]
theorem erase_ret [Inhabited T] (v : VLVec T SC) (f l : Nat) :
    (erase v f l).2 = f := rfl

theorem erase_active [Inhabited T] (v : VLVec T SC) (f l : Nat) :
    activeMem (erase v f l).1 =
      copyRange (activeMem v) (activeMem (eraseShrinkStep v f l)) l f
        (v._size - l) := by
  simp only [erase, activeMem_setSize, activeMem_setActive]

@[simp]
theorem copyMembers_size [Inhabited T] (v other : VLVec T SC) :
    (_copyMembers v other)._size = other._size := by
  simp [_copyMembers]

@[simp]
theorem copyMembers_capacity [Inhabited T] (v other : VLVec T SC) :
    (_copyMembers v other)._capacity = other._capacity := by
  simp [_copyMembers]

@[simp]
theorem assignOp_size [Inhabited T] (v other : VLVec T SC) :
    (assignOp v other)._size = other._size := by
  unfold assignOp; split <;> simp

@[simp]
theorem assignOp_capacity [Inhabited T] (v other : VLVec T SC) :
    (assignOp v other)._capacity = other._capacity := by
  unfold assignOp; split <;> simp

/-! The capacity invariant of reachable containers. -/

/-- The capacity formula never returns less than the requested total size. -/
theorem cap_ge (v : VLVec T SC) (n : Nat) : v._size + n ≤ _cap v n := by
  unfold _cap; split <;> omega

/-- Floor of `GROWTH_FACTOR * x` (`GROWTH_FACTOR = 3.0/2.0`, exactly `3/2`)
equals natural division `3 * x / 2`. -/
theorem floor_three_halves (x : Nat) : ⌊(3 / 2 : ℚ) * x⌋₊ = 3 * x / 2 := by
  rw [show (3 / 2 : ℚ) * x = ((3 * x : ℕ) : ℚ) / ((2 : ℕ) : ℚ) by push_cast; ring]
  exact Nat.floor_div_nat _ _

/-- Invariant maintained by every public operation: the capacity is at least
the static capacity, and it equals the static capacity unless the size
exceeds the static capacity. -/
def capInv (v : VLVec T SC) : Prop :=
  SC ≤ v._capacity ∧ (v._capacity = SC ∨ SC < v._size)

theorem capInv_mk [Inhabited T] : capInv (mkVLVec : VLVec T SC) := by
  unfold capInv mkVLVec; simp

theorem capInv_pushAt [Inhabited T] (v : VLVec T SC) (p n : Nat)
    (f : (Nat → T) → Nat → T) (h : capInv v) : capInv (_pushAt v p n f) := by
  unfold capInv at *
  rw [pushAt_capacity, pushAt_size]
  split
  · unfold _cap; split <;> omega
  · omega

theorem capInv_erase [Inhabited T] (v : VLVec T SC) (f l : Nat) (h : capInv v) :
    capInv (erase v f l).1 := by
  unfold capInv at *
  rw [erase_capacity, erase_size]
  by_cases hb : eraseShrinks v f l = true
  · simp [hb]
  · have hbf : eraseShrinks v f l = false := by rw [Bool.eq_false_iff]; exact hb
    have hb2 : ¬(SC < v._capacity ∧ v._size - (l - f) ≤ SC) := by
      rw [← eraseShrinks_iff, hbf]; simp
    simp only [hbf, Bool.false_eq_true, if_false]
    by_cases hc : v._capacity = SC <;> omega

theorem capInv_copyMembers [Inhabited T] (v other : VLVec T SC) (h : capInv other) :
    capInv (_copyMembers v other) := by
  unfold capInv at *
  rw [copyMembers_capacity, copyMembers_size]
  exact h

theorem capInv_assign [Inhabited T] (v other : VLVec T SC) (h : capInv other) :
    capInv (assignOp v other) := by
  unfold assignOp
  split <;> exact capInv_copyMembers _ _ h

/-- Every container reachable through the public operations satisfies the
capacity invariant. -/
theorem reachable_capInv [Inhabited T] {v : VLVec T SC} (h : Reachable v) :
    capInv v := by
  induction h with
  | mk => exact capInv_mk
  | push w x _ ih => exact capInv_pushAt w w._size 1 _ ih
  | insOne w p x hp _ ih => exact capInv_pushAt w p 1 _ ih
  | insRange w p xs hp _ ih => exact capInv_pushAt w p xs.length _ ih
  | ers w f l hf hl _ ih => exact capInv_erase w f l ih
  | pop w hne _ ih => exact capInv_erase w (w._size - 1) w._size ih
  | clr w _ ih => exact capInv_erase w 0 w._size ih
  | assign a b _ _ _ ihb => exact capInv_assign a b ihb
  | copy w _ ih => exact capInv_copyMembers mkVLVec w ih
  | range xs => exact capInv_pushAt mkVLVec 0 xs.length _ capInv_mk

/-! Lemmas about the element sequence `toList`. -/

@[simp]
theorem toList_length (v : VLVec T SC) : (toList v).length = v._size := by
  simp [toList]

theorem toList_getElem (v : VLVec T SC) (i : Nat) (h : i < (toList v).length) :
    (toList v)[i] = activeMem v i := by
  simp [toList]

/-- Effect of range insertion on the element sequence: the prefix before the
insertion point, then the inserted range, then the suffix from the insertion
point. -/
theorem insertRange_toList [Inhabited T] (v : VLVec T SC) (p : Nat) (xs : List T)
    (hp : p ≤ v._size) :
    toList (insertRange v p xs).1 = (toList v).take p ++ xs ++ (toList v).drop p := by
  apply List.ext_getElem
  · rw [toList_length, show (insertRange v p xs).1 = _pushAt v p xs.length
      (fun m => writeList m p xs) from rfl, pushAt_size]
    simp
    omega
  · intro i h1 h2
    rw [toList_getElem _ _ h1]
    rw [toList_length, show (insertRange v p xs).1 = _pushAt v p xs.length
      (fun m => writeList m p xs) from rfl, pushAt_size] at h1
    rw [show (insertRange v p xs).1 = _pushAt v p xs.length
      (fun m => writeList m p xs) from rfl, pushAt_active]
    show writeList (copyRange (activeMem v) (activeMem (pushRealloc v p xs.length)) p
      (p + xs.length) (v._size - p)) p xs i = _
    simp only [writeList, copyRange]
    by_cases hip : i < p
    · rw [if_neg (by omega), if_neg (by omega), pushRealloc_active_lt v p xs.length i hip]
      rw [List.getElem_append_left (by simp; omega),
        List.getElem_append_left (by simp; omega), List.getElem_take,
        toList_getElem]
    · by_cases hiL : i < p + xs.length
      · rw [if_pos (by omega)]
        rw [List.getElem_append_left (by simp; omega),
          List.getElem_append_right (by simp; omega)]
        rw [List.getD_eq_getElem xs default (by omega)]
        congr 1
        simp
        omega
      · rw [if_neg (by omega), if_pos (by omega)]
        rw [List.getElem_append_right (by simp; omega), List.getElem_drop,
          toList_getElem]
        congr 1
        simp
        omega

/-- Effect of `erase` on the element sequence: the prefix before `first`
followed by the suffix from `last`. -/
theorem erase_toList [Inhabited T] (v : VLVec T SC) (f l : Nat) (hf : f ≤ l)
    (hl : l ≤ v._size) :
    toList (erase v f l).1 = (toList v).take f ++ (toList v).drop l := by
  apply List.ext_getElem
  · simp
    omega
  · intro i h1 h2
    rw [toList_getElem _ _ h1]
    rw [toList_length, erase_size] at h1
    rw [erase_active]
    simp only [copyRange]
    by_cases hif : i < f
    · rw [if_neg (by omega), eraseShrinkStep_active_lt v f l i hif]
      rw [List.getElem_append_left (by simp; omega), List.getElem_take,
        toList_getElem]
    · rw [if_pos (by omega)]
      rw [List.getElem_append_right (by simp; omega), List.getElem_drop,
        toList_getElem]
      congr 1
      simp
      omega

theorem setActive_activeMem (v : VLVec T SC) : setActive v (activeMem v) = v := by
  cases h : v.dataIsStatic <;> simp [setActive, activeMem, h] <;> rw [← h]

/-- Erasing an empty range from a container satisfying the capacity invariant
changes nothing: the shrink branch is off and the gap-closing copy writes each
element to its own position. -/
theorem erase_noop [Inhabited T] (v : VLVec T SC) (p : Nat) (hinv : capInv v) :
    erase v p p = (v, p) := by
  have hb : eraseShrinks v p p = false := by
    rw [Bool.eq_false_iff, Ne, eraseShrinks_iff]
    unfold capInv at hinv
    omega
  have hstep : eraseShrinkStep v p p = v := by
    unfold eraseShrinkStep
    rw [hb]
    rfl
  have hcopy : copyRange (activeMem v) (activeMem v) p p (v._size - p) = activeMem v := by
    funext i
    unfold copyRange
    split
    · next hc => congr 1; omega
    · rfl
  have hsub : v._size - (p - p) = v._size := by omega
  show (let initEndIdx := v._size
    let toRemoveSize := p - p
    let oldActive := activeMem v
    let v1 := eraseShrinkStep v p p
    let v2 := setActive v1 (copyRange oldActive (activeMem v1) p p (initEndIdx - p))
    ({ v2 with _size := v2._size - toRemoveSize }, p)) = (v, p)
  simp only [hstep, hcopy, setActive_activeMem, setActive_size, hsub]

/-! The push_back invariant: inline exactly while the size has never
exceeded the static capacity. -/

/-- Invariant of a container produced by `push_back` sequences. -/
def pushQ (v : VLVec T SC) : Prop :=
  v._size ≤ v._capacity
    ∧ (v._size ≤ SC → v._capacity = SC ∧ v.dataIsStatic = true)
    ∧ (SC < v._size → v.dataIsStatic = false)

theorem pushQ_mk [Inhabited T] : pushQ (mkVLVec : VLVec T SC) := by
  unfold pushQ mkVLVec
  simp

theorem pushQ_push [Inhabited T] (v : VLVec T SC) (x : T) (h : pushQ v) :
    pushQ (push_back v x) := by
  obtain ⟨h1, h2, h3⟩ := h
  unfold pushQ push_back
  rw [pushAt_size, pushAt_capacity, pushAt_flag]
  by_cases hr : v._size + 1 > v._capacity
  · rw [if_pos hr, if_pos hr]
    have hcap := cap_ge v 1
    refine ⟨hcap, fun hle => ?_, fun _ => rfl⟩
    exfalso
    have := h2 (by omega)
    omega
  · rw [if_neg hr, if_neg hr]
    refine ⟨by omega, fun hle => h2 (by omega), fun hgt => ?_⟩
    by_cases hs : v._size ≤ SC
    · have := h2 hs
      omega
    · exact h3 (by omega)

theorem pushQ_foldl [Inhabited T] (xs : List T) (v : VLVec T SC) (h : pushQ v) :
    (xs.foldl push_back v)._size = v._size + xs.length
      ∧ pushQ (xs.foldl push_back v) := by
  induction xs generalizing v with
  | nil => simpa using h
  | cons a as ih =>
    have hstep := pushQ_push v a h
    have := ih (push_back v a) hstep
    rw [List.foldl_cons]
    refine ⟨?_, this.2⟩
    rw [this.1]
    unfold push_back
    rw [pushAt_size]
    simp
    omega

theorem setActive_staticMem (v : VLVec T SC) (m : Nat → T) :
    (setActive v m)._staticMem = if v.dataIsStatic then m else v._staticMem := by
  cases h : v.dataIsStatic <;> simp [setActive, h]

/-! Theorems for the claims. -/

/-- C1: the claim fails on the code.  When the destination is in heap mode and
the source is in inline mode, `operator=` deletes the destination's heap
block and `_copyMembers` sets `_capacity = StaticCapacity` but never retargets
`_data` to `_staticMem`, so afterwards the capacity equals the inline capacity
while the active storage is still the (freed) heap block: the claimed
invariant is violated.  Concrete run with `StaticCapacity = 2`:
destination holds `[1,2,3]` (heap mode, capacity 4), source holds `[9]`
(inline mode). -/
theorem assign_heap_from_inline_dangling :
    2 < (exHeap2)._capacity
    ∧ (exInline2).dataIsStatic = true
    ∧ (assignOp (exHeap2)
        (exInline2))._capacity = 2
    ∧ (assignOp (exHeap2)
        (exInline2)).dataIsStatic = false := by
  decide

/-- C2: the claim fails on the code.  `operator!=` is written
`return !operator=(other);` — it invokes the copy-assignment operator instead
of `operator==` (and `!` does not even type-check on the returned
`VLVector&`).  The claim expects `a != b` to equal `!(a == b)` and to leave
`a` unchanged; the operator the code calls instead overwrites `a` with `b`.
Concrete run: `a = [1]`, `b = [2]` are unequal under `operator==`, yet the
call the code makes turns `a` into `[2]`. -/
theorem neq_invokes_assignment :
    beq (exOne) (exTwo) = false
    ∧ toList (exOne) = [1]
    ∧ toList (assignOp (exOne)
        (exTwo)) = [2] := by
  decide

/-- C3: from heap mode, the erase whose resulting size is at most the static
capacity switches to inline storage (capacity and flag) right then, keeping
the surviving elements in order; an erase whose resulting size stays above
the static capacity leaves capacity and storage flag unchanged. -/
theorem erase_heap_shrink_spec [Inhabited T] (v : VLVec T SC) (f l : Nat)
    (hheap : SC < v._capacity) (hf : f ≤ l) (hl : l ≤ v._size) :
    (v._size - (l - f) ≤ SC →
      (erase v f l).1._capacity = SC
        ∧ (erase v f l).1.dataIsStatic = true
        ∧ toList (erase v f l).1 = (toList v).take f ++ (toList v).drop l)
    ∧ (SC < v._size - (l - f) →
      (erase v f l).1._capacity = v._capacity
        ∧ (erase v f l).1.dataIsStatic = v.dataIsStatic
        ∧ toList (erase v f l).1 = (toList v).take f ++ (toList v).drop l) := by
  constructor
  · intro hle
    have hb : eraseShrinks v f l = true := by
      rw [eraseShrinks_iff]; exact ⟨hheap, hle⟩
    rw [erase_capacity, erase_flag]
    refine ⟨?_, ?_, erase_toList v f l hf hl⟩ <;> simp [hb]
  · intro hgt
    have hb : eraseShrinks v f l = false := by
      rw [Bool.eq_false_iff, Ne, eraseShrinks_iff]; omega
    rw [erase_capacity, erase_flag]
    refine ⟨?_, ?_, erase_toList v f l hf hl⟩ <;> simp [hb]

/-- C3 witness: `StaticCapacity = 4`, container `[1,2,3,4,5]` in heap mode;
erasing one element crosses the threshold and shrinks back to inline. -/
theorem erase_heap_shrink_witness :
    (erase (exHeap4) 0 1).1._capacity = 4
    ∧ (erase (exHeap4) 0 1).1.dataIsStatic = true
    ∧ toList (erase (exHeap4) 0 1).1
        = (toList (exHeap4)).take 0
          ++ (toList (exHeap4)).drop 1 :=
  (erase_heap_shrink_spec (exHeap4) 0 1
    (by decide) (by decide) (by decide)).1 (by decide)

/-- C4: range insertion before position `p` yields prefix ++ range ++ suffix
and returns the index of the first inserted element (`p`, which is also the
original position when the range is empty). -/
theorem insert_range_spec [Inhabited T] (v : VLVec T SC) (p : Nat) (xs : List T)
    (hp : p ≤ v._size) :
    toList (insertRange v p xs).1 = (toList v).take p ++ xs ++ (toList v).drop p
    ∧ (insertRange v p xs).2 = p :=
  ⟨insertRange_toList v p xs hp, rfl⟩

/-- C4 witness: inserting `[1,2,3]` before `begin` on `[10,20]` yields
`[1,2,3,10,20]` and returns position 0. -/
theorem insert_range_witness :
    toList (insertRange (exXY) 0 [1, 2, 3]).1
        = (toList (exXY)).take 0 ++ [1, 2, 3]
          ++ (toList (exXY)).drop 0
    ∧ (insertRange (exXY) 0 [1, 2, 3]).2 = 0 :=
  insert_range_spec (exXY) 0 [1, 2, 3] (by decide)

/-- C5: the capacity formula `_cap` returns the static capacity when the
requested total fits inline, otherwise `⌊1.5 * total⌋`, and in both cases at
least the requested total. -/
theorem computeCapacity_spec (v : VLVec T SC) (additionalSize : Nat) :
    (v._size + additionalSize ≤ SC → _cap v additionalSize = SC)
    ∧ (SC < v._size + additionalSize →
        _cap v additionalSize = ⌊(3 / 2 : ℚ) * (v._size + additionalSize : Nat)⌋₊)
    ∧ v._size + additionalSize ≤ _cap v additionalSize := by
  refine ⟨fun h => ?_, fun h => ?_, cap_ge v additionalSize⟩
  · unfold _cap
    rw [if_pos h]
  · unfold _cap
    rw [if_neg (by omega), ← floor_three_halves]

/-- C5 witness: size 4, one more element, `StaticCapacity = 4`:
`_cap = ⌊1.5 * 5⌋ = 7 ≥ 5`. -/
theorem computeCapacity_witness :
    _cap (exFull4) 1
        = ⌊(3 / 2 : ℚ) * ((exFull4)._size + 1 : Nat)⌋₊
    ∧ (exFull4)._size + 1
        ≤ _cap (exFull4) 1 :=
  ⟨(computeCapacity_spec (exFull4) 1).2.1 (by decide),
    (computeCapacity_spec (exFull4) 1).2.2⟩

/-- C6: after pushing `n` elements onto a default-constructed container:
if `n ≤ StaticCapacity` the capacity is the static capacity and the inline
buffer is active; if `n > StaticCapacity` the capacity is at least `n` and
the active storage is a heap block. -/
theorem pushBack_capacity_spec [Inhabited T] (xs : List T) :
    (pushSeq xs : VLVec T SC)._size = xs.length
    ∧ (xs.length ≤ SC →
        (pushSeq xs : VLVec T SC)._capacity = SC
          ∧ (pushSeq xs : VLVec T SC).dataIsStatic = true)
    ∧ (SC < xs.length →
        xs.length ≤ (pushSeq xs : VLVec T SC)._capacity
          ∧ (pushSeq xs : VLVec T SC).dataIsStatic = false) := by
  obtain ⟨hsz, hq⟩ := pushQ_foldl xs (mkVLVec : VLVec T SC) pushQ_mk
  unfold pushSeq
  rw [show (mkVLVec : VLVec T SC)._size = 0 from rfl] at hsz
  obtain ⟨q1, q2, q3⟩ := hq
  refine ⟨by omega, fun hle => q2 (by omega), fun hgt => ⟨by omega, q3 (by omega)⟩⟩

/-- C6 witness: `StaticCapacity = 2`, pushing three elements leaves heap mode
with capacity at least 3. -/
theorem pushBack_capacity_witness :
    (exHeap2)._size = 3
    ∧ 3 ≤ (exHeap2)._capacity
    ∧ (exHeap2).dataIsStatic = false := by
  have h := @pushBack_capacity_spec Nat 2 _ [1, 2, 3]
  exact ⟨h.1, (h.2.2 (by decide)).1, (h.2.2 (by decide)).2⟩

/-- C7: the checked accessor errors exactly when the index is at least the
size; below the size it returns the live element, equal to unchecked access;
the read-only overload agrees with the mutable one.  Both are pure functions
of the state, which is left unchanged. -/
theorem at_checked_spec (v : VLVec T SC) (i : Nat) :
    (atIdx v i = Except.error OUT_OF_RANGE_ERR_MSG ↔ v._size ≤ i)
    ∧ (i < v._size → atIdx v i = Except.ok (getOp v i))
    ∧ atIdxConst v i = atIdx v i := by
  refine ⟨?_, fun hlt => ?_, rfl⟩
  · unfold atIdx
    split
    · next h => simpa using h
    · next h =>
      simp only [reduceCtorEq, false_iff]
      omega
  · unfold atIdx getOp
    rw [if_neg (by omega)]

/-- C7 witness: singleton `[7]` with `StaticCapacity = 4`: `at(1)` errors,
`at(0)` returns the element that `operator[]` returns, and the const overload
agrees. -/
theorem at_checked_witness :
    atIdx (exSeven) 1 = Except.error OUT_OF_RANGE_ERR_MSG
    ∧ atIdx (exSeven) 0
        = Except.ok (getOp (exSeven) 0)
    ∧ atIdxConst (exSeven) 0
        = atIdx (exSeven) 0 :=
  ⟨(at_checked_spec (exSeven) 1).1.mpr (by decide),
    (at_checked_spec (exSeven) 0).2.1 (by decide),
    (at_checked_spec (exSeven) 0).2.2⟩

/-- C8 counterexample: `clear()` does NOT always trigger the inline-shrink
path.  On an inline-mode container (here: one pushed element,
`StaticCapacity = 4`) the branch condition
`_capacity > StaticCapacity && _size - toRemoveSize <= StaticCapacity` of the
`erase(begin, end)` call made by `clear()` is false. -/
theorem clear_always_shrinks_cex :
    eraseShrinks (exPush1) 0
      (exPush1)._size = false := by
  decide

/-- C8 amended: `clear()` equals `erase(begin, end)`; its `erase` call takes
the inline-shrink path exactly when the container is in heap mode; and for
any container satisfying the storage invariant it leaves size 0, capacity
equal to the static capacity, and the inline buffer active. -/
theorem clear_spec_amended [Inhabited T] (v : VLVec T SC)
    (hflag : v.dataIsStatic = true ↔ v._capacity = SC) (hcap : SC ≤ v._capacity) :
    clear v = (erase v 0 v._size).1
    ∧ (clear v)._size = 0
    ∧ (clear v)._capacity = SC
    ∧ (clear v).dataIsStatic = true
    ∧ (eraseShrinks v 0 v._size = true ↔ SC < v._capacity) := by
  have hshr : eraseShrinks v 0 v._size = true ↔ SC < v._capacity := by
    rw [eraseShrinks_iff]
    omega
  refine ⟨rfl, ?_, ?_, ?_, hshr⟩
  · unfold clear
    rw [erase_size]
    omega
  · unfold clear
    rw [erase_capacity]
    by_cases hb : eraseShrinks v 0 v._size = true
    · simp [hb]
    · simp only [Bool.not_eq_true] at hb
      simp only [hb, Bool.false_eq_true, if_false]
      have hnc : ¬ SC < v._capacity := fun hc => by simp [hshr.mpr hc] at hb
      omega
  · unfold clear
    rw [erase_flag]
    by_cases hb : eraseShrinks v 0 v._size = true
    · simp [hb]
    · simp only [Bool.not_eq_true] at hb
      simp only [hb, Bool.false_eq_true, if_false]
      have hnc : ¬ SC < v._capacity := fun hc => by simp [hshr.mpr hc] at hb
      exact hflag.mpr (by omega)

/-- C8 witness (for the amended claim): clearing the heap-mode container
`[1,2,3,4,5]` with `StaticCapacity = 4` gives size 0, capacity 4, inline. -/
theorem clear_spec_witness :
    (clear (exHeap4))._size = 0
    ∧ (clear (exHeap4))._capacity = 4
    ∧ (clear (exHeap4)).dataIsStatic = true := by
  have h := clear_spec_amended (exHeap4)
    (by decide) (by decide)
  exact ⟨h.2.1, h.2.2.1, h.2.2.2.1⟩

/-- C9: for a container reachable through the public operations and a valid
position `p`, `erase(p, p)` returns `p` and changes nothing: size, capacity,
active storage and all elements are untouched. -/
theorem erase_empty_range_noop [Inhabited T] (v : VLVec T SC) (p : Nat)
    (h : Reachable v) (hp : p ≤ v._size) :
    erase v p p = (v, p) :=
  erase_noop v p (reachable_capInv h)

/-- C9 witness: one pushed element, `erase(1, 1)` at `end` is the identity. -/
theorem erase_empty_range_witness :
    erase (exPush1) 1 1
      = (exPush1, 1) :=
  erase_empty_range_noop (exPush1) 1
    (Reachable.push mkVLVec 1 Reachable.mk) (by decide)

/-- C10: when the shrink-to-inline branch of `erase(first, last)` is taken,
it copies exactly `first - begin()` elements into the inline buffer; this
count is at most the static capacity, and every inline-buffer slot at or
beyond the resulting size (in particular every slot outside the buffer's
bounds) is untouched, so all writes into the fixed inline buffer are within
its bounds. -/
theorem erase_shrink_inline_bounds [Inhabited T] (v : VLVec T SC) (f l : Nat)
    (hf : f ≤ l) (hl : l ≤ v._size) (hb : eraseShrinks v f l = true) :
    f ≤ SC
    ∧ v._size - (l - f) ≤ SC
    ∧ (∀ i, i < f → (erase v f l).1._staticMem i = activeMem v i)
    ∧ (∀ i, v._size - (l - f) ≤ i → (erase v f l).1._staticMem i = v._staticMem i) := by
  have hb2 := (eraseShrinks_iff v f l).mp hb
  have hstatic : (eraseShrinkStep v f l)._staticMem
      = copyRange (activeMem v) v._staticMem 0 0 f := by
    unfold eraseShrinkStep
    rw [if_pos hb]
  have hflag : (eraseShrinkStep v f l).dataIsStatic = true := by
    rw [eraseShrinkStep_flag, if_pos hb]
  have hres : (erase v f l).1._staticMem
      = copyRange (activeMem v) (activeMem (eraseShrinkStep v f l)) l f
        (v._size - l) := by
    show (setActive (eraseShrinkStep v f l)
      (copyRange (activeMem v) (activeMem (eraseShrinkStep v f l)) l f
        (v._size - l)))._staticMem = _
    rw [setActive_staticMem, if_pos hflag]
  have hactive : activeMem (eraseShrinkStep v f l) = (eraseShrinkStep v f l)._staticMem := by
    unfold activeMem
    rw [if_pos hflag]
  refine ⟨by omega, by omega, fun i hi => ?_, fun i hi => ?_⟩
  · rw [hres, copyRange_apply, if_neg (by omega)]
    exact eraseShrinkStep_active_lt v f l i hi
  · rw [hres, copyRange_apply, if_neg (by omega), hactive, hstatic,
      copyRange_apply, if_neg (by omega)]

/-- C10 witness: `[1,2,3,4,5]` in heap mode with `StaticCapacity = 4`,
`erase(1, 3)` shrinks; the prefix count 1 is within bounds and slot 0 holds
the copied live element. -/
theorem erase_shrink_inline_bounds_witness :
    (1 : Nat) ≤ 4
    ∧ (exHeap4)._size - (3 - 1) ≤ 4
    ∧ (erase (exHeap4) 1 3).1._staticMem 0
        = activeMem (exHeap4) 0 := by
  have h := erase_shrink_inline_bounds (exHeap4)
    1 3 (by decide) (by decide) (by decide)
  exact ⟨h.1, h.2.1, h.2.2.1 0 (by decide)⟩

end VLV
